import Mathlib

set_option maxRecDepth 100000

namespace PinoGcloud

/-- JSON-like JavaScript value: the open-schema payload values carried by a
Pino log record and by the entry payload sent to Cloud Logging. -/
inductive Value where
  | vnull : Value
  | vbool : Bool → Value
  | vnum : Int → Value
  | vstr : String → Value
  | vobj : List (String × Value) → Value

/-- A JavaScript object, as an insertion-ordered association list. -/
abbrev JsObj := List (String × Value)

/-- Property read `o[k]`: first binding of `k`, or `none` for `undefined`. -/
def lookupKey {α : Type} (o : List (String × α)) (k : String) : Option α :=
  match o with
  | [] => none
  | p :: rest => if p.1 = k then some p.2 else lookupKey rest k

/-- Property assignment `o[k] = v`: replaces the binding in place when the key
exists (JavaScript keeps the original insertion position for an existing key)
and appends it otherwise. -/
def setKey {α : Type} (o : List (String × α)) (k : String) (v : α) : List (String × α) :=
  match o with
  | [] => [(k, v)]
  | p :: rest => if p.1 = k then (k, v) :: rest else p :: setKey rest k v

/-- Cloud Logging severities produced by the engine (`common.js` `mapLevel`
only ever returns these five of the severities listed in `types.ts`). -/
inductive Severity where
  | DEBUG
  | INFO
  | WARNING
  | ERROR
  | CRITICAL
deriving DecidableEq

/-- The `err` object of a Pino log record (`types.ts`): `type`, `message` and
`stack`, each optional. -/
structure PinoErr where
  type : Option String := none
  message : Option String := none
  stack : Option String := none

/-- Service context for Error Reporting (`types.ts` `ServiceContext`). -/
structure ServiceContext where
  service : Option String := none
  version : Option String := none

/-- Latency value of an `httpRequest` block: whole seconds and nanoseconds. -/
structure Latency where
  seconds : Int
  nanos : Int
deriving DecidableEq

/-- HTTP request metadata (`IHttpRequest` as documented in the repository's
API reference), every field optional. -/
structure HttpRequest where
  requestMethod : Option String := none
  requestUrl : Option String := none
  requestSize : Option Int := none
  status : Option Int := none
  responseSize : Option Int := none
  userAgent : Option String := none
  remoteIp : Option String := none
  serverIp : Option String := none
  referer : Option String := none
  latency : Option Latency := none
  cacheLookup : Option Bool := none
  cacheHit : Option Bool := none
  cacheValidatedWithOriginServer : Option Bool := none
  cacheFillBytes : Option Int := none
  protocol : Option String := none

/-- A Pino log record (`types.ts` `PinoLogObject`): the typed reserved fields
plus an open schema (`extra`) for every other key.  `trace`, `spanId` and
`sampled` model the reserved dotted keys `logging.googleapis.com/trace`,
`logging.googleapis.com/spanId` and `logging.googleapis.com/trace_sampled`. -/
structure PinoLogObject where
  level : Int
  time : Int
  msg : Option String := none
  pid : Option Int := none
  hostname : Option String := none
  err : Option PinoErr := none
  trace : Option String := none
  spanId : Option String := none
  sampled : Option Bool := none
  httpRequest : Option HttpRequest := none
  labels : Option (List (String × String)) := none
  extra : JsObj := []

/-- Engine configuration (`LoggingCommon` constructor options).  `pfx` models
the source option named `prefix` (renamed here); `hasDefaultCallback` models
whether a `defaultCallback` was configured.  Defaults mirror the constructor:
`redirectToStdout ?? false`, `useMessageField ?? true`,
`maxEntrySize ?? 250000`, log name default `pino_log`. -/
structure Config where
  logName : String := "pino_log"
  projectId : Option String := none
  serviceContext : Option ServiceContext := none
  labels : Option (List (String × String)) := none
  pfx : Option String := none
  redirectToStdout : Bool := false
  useMessageField : Bool := true
  maxEntrySize : Nat := 250000
  hasDefaultCallback : Bool := false

/-- State of the optional ambient trace agent (`trace.js` `TraceAgent`):
`getCurrentContextId()` and `getWriterProjectId()` results. -/
structure TraceAgentState where
  contextId : Option String := none
  writerProjectId : Option String := none

/-- `getCurrentTraceFromAgent` (`trace.js`): full trace resource name from the
optional global agent; `null` unless the agent reports a truthy (non-empty)
context id and writer project id. -/
def getCurrentTraceFromAgent (agent : Option TraceAgentState) : Option String :=
  match agent with
  | none => none
  | some a =>
    match a.contextId, a.writerProjectId with
    | some traceId, some projectId =>
      if traceId = "" ∨ projectId = "" then none
      else some ("projects/" ++ projectId ++ "/traces/" ++ traceId)
    | some _, none => none
    | none, _ => none

/-- Result of `parseTraceHeader` (`trace.js`). -/
structure TraceHeaderResult where
  trace : Option String
  spanId : Option String
  sampled : Bool
deriving DecidableEq

/-- Case-insensitive hexadecimal digit, the character class `[a-f0-9]` of the
source regex under the `i` flag. -/
def isHexDigit (c : Char) : Bool :=
  c.isDigit || (decide ('a' ≤ c) && decide (c ≤ 'f')) || (decide ('A' ≤ c) && decide (c ≤ 'F'))

/-- The optional `(?:;o=(\d))?` tail of the header regex followed by `$`:
either nothing remains, or exactly `;o=` (the letter case-insensitive) and one
decimal digit remain.  Returns the captured digit. -/
def matchTail2 (cs : List Char) : Option (Option Char) :=
  match cs with
  | [] => some none
  | c1 :: c2 :: c3 :: c4 :: rest =>
    if c1 = ';' ∧ (c2 = 'o' ∨ c2 = 'O') ∧ c3 = '=' ∧ c4.isDigit = true ∧ rest = []
    then some (some c4) else none
  | _ :: _ => none

/-- The optional `(?:\/(\d+))?` part of the header regex together with its
tail: an optional `/` plus a non-empty greedy run of decimal digits (the
source's `\d+` capture), then the flag tail. Returns the captured span digits
and flag digit. -/
def matchTail1 (cs : List Char) : Option (Option (List Char) × Option Char) :=
  match cs with
  | [] => (matchTail2 []).map (fun fl => (none, fl))
  | c :: r =>
    if c = '/' then
      if r.takeWhile Char.isDigit = [] then none
      else (matchTail2 (r.dropWhile Char.isDigit)).map
        (fun fl => (some (r.takeWhile Char.isDigit), fl))
    else (matchTail2 (c :: r)).map (fun fl => (none, fl))

/-- The anchored header regex `^([a-f0-9]+)(?:\/(\d+))?(?:;o=(\d))?$` with the
`i` flag (`trace.js`), as a deterministic matcher: a non-empty greedy run of
hex digits (greediness is exact because `/`, `;` and end-of-string never
continue a hex run), then the optional span and flag parts.  Returns the three
captures. -/
def matchHeader (cs : List Char) : Option (List Char × Option (List Char) × Option Char) :=
  if cs.takeWhile isHexDigit = [] then none
  else (matchTail1 (cs.dropWhile isHexDigit)).map
    (fun p => (cs.takeWhile isHexDigit, p.1, p.2))

/-- `parseTraceHeader` (`trace.js`): parse the `X-Cloud-Trace-Context` header
into trace resource name, span id and sampled flag; all-null/false when header
or project id is empty (falsy) or the regex does not match. -/
def parseTraceHeader (header : String) (projectId : String) : TraceHeaderResult :=
  if header = "" ∨ projectId = "" then ⟨none, none, false⟩
  else
    match matchHeader header.toList with
    | none => ⟨none, none, false⟩
    | some (traceId, spanId, traceSampled) =>
      { trace := some ("projects/" ++ projectId ++ "/traces/" ++ String.mk traceId)
        spanId := spanId.map (fun ds => String.mk ds)
        sampled := traceSampled = some '1' }

/-- `mapLevel` (`common.js`): threshold mapping from the Pino numeric level to
a Cloud Logging severity, evaluated highest-first. -/
def mapLevel (level : Int) : Severity :=
  if level ≥ 60 then Severity.CRITICAL
  else if level ≥ 50 then Severity.ERROR
  else if level ≥ 40 then Severity.WARNING
  else if level ≥ 30 then Severity.INFO
  else Severity.DEBUG

/-- `formatMessage` (`common.js`): message from `msg` (empty if absent), with
`[prefix] ` prepended when the configured prefix is truthy, and the error
stack appended after a newline (or used alone when the message is empty) when
`err.stack` is truthy. -/
def formatMessage (cfg : Config) (r : PinoLogObject) : String :=
  let message := r.msg.getD ""
  let message :=
    match cfg.pfx with
    | some p => if p = "" then message else "[" ++ p ++ "] " ++ message
    | none => message
  match r.err with
  | some e =>
    match e.stack with
    | some st => if st = "" then message else if message = "" then st else message ++ "\n" ++ st
    | none => message
  | none => message

/-- Result of `extractTraceInfo` (`common.js`): the fields set on `result`. -/
structure TraceInfo where
  trace : Option String := none
  spanId : Option String := none
  traceSampled : Option Bool := none

/-- `extractTraceInfo` (`common.js`): the trace and span fields of the record
are used when truthy (non-empty), the sampled field when not `undefined`; only
the trace falls back to the agent (when its value is truthy). -/
def extractTraceInfo (agent : Option TraceAgentState) (r : PinoLogObject) : TraceInfo :=
  let t0 : Option String :=
    match r.trace with
    | some t => if t = "" then none else some t
    | none => none
  let s0 : Option String :=
    match r.spanId with
    | some s => if s = "" then none else some s
    | none => none
  let t1 : Option String :=
    match t0 with
    | some t => some t
    | none =>
      match getCurrentTraceFromAgent agent with
      | some agentTrace => if agentTrace = "" then none else some agentTrace
      | none => none
  { trace := t1, spanId := s0, traceSampled := r.sampled }

/-- Reserved key `logging.googleapis.com/trace` (`types.ts`). -/
def LOGGING_TRACE_KEY : String := "logging.googleapis.com/trace"

/-- Reserved key `logging.googleapis.com/spanId` (`types.ts`). -/
def LOGGING_SPAN_KEY : String := "logging.googleapis.com/spanId"

/-- Reserved key `logging.googleapis.com/trace_sampled` (`types.ts`). -/
def LOGGING_SAMPLED_KEY : String := "logging.googleapis.com/trace_sampled"

/-- The `excludeKeys` set of `buildMetadata` (`common.js`). -/
def excludeKeys : List String :=
  ["level", "time", "msg", "pid", "hostname", "err",
   LOGGING_TRACE_KEY, LOGGING_SPAN_KEY, LOGGING_SAMPLED_KEY, "httpRequest", "labels"]

/-- The payload `error` object built by `buildMetadata`: `{type, message}` of
the record's `err`, the stack deliberately excluded. -/
def errEntry (e : PinoErr) : Value :=
  Value.vobj
    ((match e.type with | some t => [("type", Value.vstr t)] | none => []) ++
     (match e.message with | some m => [("message", Value.vstr m)] | none => []))

/-- `buildMetadata` (`common.js`): copy every entry of the record except the
reserved keys, then assign `error` (when `err` is present), then re-assign
`pid` and `hostname` when truthy.  On this embedding the reserved keys are
exactly the structure's named fields, so the source's `Object.entries` loop
reduces to filtering `extra`; the filter is kept so that reserved keys
appearing in `extra` are excluded exactly as in the source. -/
def buildMetadata (r : PinoLogObject) : JsObj :=
  let metadata := r.extra.filter (fun p => !(excludeKeys.contains p.1))
  let metadata :=
    match r.err with
    | some e => setKey metadata "error" (errEntry e)
    | none => metadata
  let metadata :=
    match r.pid with
    | some p => if p = 0 then metadata else setKey metadata "pid" (Value.vnum p)
    | none => metadata
  match r.hostname with
  | some hn => if hn = "" then metadata else setKey metadata "hostname" (Value.vstr hn)
  | none => metadata

/-- The label merge `{...this.labels, ...logObject.labels}` of `writeLog`:
record labels win on key collision, keeping the insertion position of the
configured labels. -/
def mergeLabels (a b : Option (List (String × String))) : List (String × String) :=
  (b.getD []).foldl (fun acc p => setKey acc p.1 p.2) (a.getD [])

/-- Truthiness of `logObject.err?.stack`: an error with a non-empty stack. -/
def errStackTruthy (r : PinoLogObject) : Bool :=
  match r.err with
  | some e => match e.stack with | some st => st != "" | none => false
  | none => false

/-- The entry payload of `writeLog` before the error-reporting augmentation:
`{...metadata}` plus `message` when the message field is enabled and the
formatted message is truthy. -/
def entryDataBase (cfg : Config) (r : PinoLogObject) : JsObj :=
  let metadata := buildMetadata r
  if cfg.useMessageField = true ∧ formatMessage cfg r ≠ "" then
    setKey metadata "message" (Value.vstr (formatMessage cfg r))
  else metadata

/-- The service context payload object `{service, version}`. -/
def serviceContextValue (sc : ServiceContext) : Value :=
  Value.vobj
    ((match sc.service with | some s => [("service", Value.vstr s)] | none => []) ++
     (match sc.version with | some v => [("version", Value.vstr v)] | none => []))

/-- The `@type` discriminator that enables Error Reporting integration. -/
def REPORTED_ERROR_TYPE : String :=
  "type.googleapis.com/google.devtools.clouderrorreporting.v1beta1.ReportedErrorEvent"

/-- The error-reporting augmentation of `writeLog` (`common.js`): when a
service context is configured, the severity is ERROR or CRITICAL and the
error stack is truthy, assign `serviceContext` and `@type` on the payload. -/
def augmentErrorReporting (cfg : Config) (r : PinoLogObject) (d : JsObj) : JsObj :=
  match cfg.serviceContext with
  | some sc =>
    if (mapLevel r.level = Severity.ERROR ∨ mapLevel r.level = Severity.CRITICAL) ∧
        errStackTruthy r = true then
      setKey (setKey d "serviceContext" (serviceContextValue sc)) "@type"
        (Value.vstr REPORTED_ERROR_TYPE)
    else d
  | none => d

/-- The fixed metadata envelope of a platform entry (the `entryMetadata`
object literal of `common.js`); `none` models an `undefined` property. -/
structure EntryMetadata where
  severity : Severity
  timestamp : Option Int := none
  labels : Option (List (String × String)) := none
  trace : Option String := none
  spanId : Option String := none
  traceSampled : Option Bool := none
  httpRequest : Option HttpRequest := none

/-- One platform log entry: metadata envelope plus free-form payload. -/
structure LogEntry where
  metadata : EntryMetadata
  data : JsObj

/-- The entry construction of `writeLog` (`common.js` lines building
`entryData`, `entryMetadata` and the augmentation, in source order). -/
def buildEntry (cfg : Config) (agent : Option TraceAgentState) (r : PinoLogObject) : LogEntry :=
  let traceInfo := extractTraceInfo agent r
  let labels := mergeLabels cfg.labels r.labels
  { metadata :=
      { severity := mapLevel r.level
        timestamp := some r.time
        labels := if labels = [] then none else some labels
        trace := traceInfo.trace
        spanId := traceInfo.spanId
        traceSampled := traceInfo.traceSampled
        httpRequest := r.httpRequest }
    data := augmentErrorReporting cfg r (entryDataBase cfg r) }

/-- A callback invocation observed during `writeLog`: the per-call callback or
the configured default callback, with its error argument (`none` = `null`). -/
inductive CbEvent where
  | perCall : Option String → CbEvent
  | defaultCb : Option String → CbEvent
deriving DecidableEq

/-- `writeLog` (`common.js`): build the entry, dispatch it to the sink (whose
resolution is the `sink` argument), then invoke the per-call callback and the
configured default callback — with `null` on success, with the error on
failure — and re-throw the failure.  Returns the entry, the callback
invocations in order, and the propagated outcome. -/
def writeLog (cfg : Config) (agent : Option TraceAgentState) (r : PinoLogObject)
    (hasCallback : Bool) (sink : Except String Unit) :
    LogEntry × List CbEvent × Except String Unit :=
  let entry := buildEntry cfg agent r
  match sink with
  | Except.ok _ =>
    (entry,
     (if hasCallback then [CbEvent.perCall none] else []) ++
       (if cfg.hasDefaultCallback then [CbEvent.defaultCb none] else []),
     Except.ok ())
  | Except.error e =>
    (entry,
     (if hasCallback then [CbEvent.perCall (some e)] else []) ++
       (if cfg.hasDefaultCallback then [CbEvent.defaultCb (some e)] else []),
     Except.error e)

/-- `writeRequestLog` (`common.js`): a minimal INFO entry with empty body,
whose envelope carries the `httpRequest` block (latency split into seconds and
nanoseconds when `latencyMs` is truthy, following the source's
`latencyMs ? {...} : undefined`, `Math.floor` and JavaScript `%`), the trace
triple and the configured labels; the sink outcome propagates unchanged. -/
def writeRequestLog (cfg : Config) (httpRequest : HttpRequest)
    (trace : Option String) (spanId : Option String) (traceSampled : Option Bool)
    (latencyMs : Option Int) (sink : Except String Unit) :
    LogEntry × Except String Unit :=
  let entryMetadata : EntryMetadata :=
    { severity := Severity.INFO
      timestamp := none
      httpRequest := some
        { httpRequest with latency :=
            match latencyMs with
            | some l =>
              if l = 0 then none
              else some { seconds := Int.fdiv l 1000, nanos := Int.tmod l 1000 * 1000000 }
            | none => none }
      trace := trace
      spanId := spanId
      traceSampled := traceSampled
      labels := cfg.labels }
  ({ metadata := entryMetadata, data := [] }, sink)

/-- State of one transport-adapter stream run: entries delivered successfully,
and errors reported to the standard error stream. -/
structure TransportState where
  written : List LogEntry
  diagnostics : List String

/-- One iteration of the transport loop (`transport.ts`): `await writeLog`
inside `try`, reporting a failure to stderr and continuing. -/
def transportStep (cfg : Config) (agent : Option TraceAgentState)
    (st : TransportState) (p : PinoLogObject × Except String Unit) : TransportState :=
  match writeLog cfg agent p.1 false p.2 with
  | (entry, _, Except.ok _) => { st with written := st.written ++ [entry] }
  | (_, _, Except.error e) => { st with diagnostics := st.diagnostics ++ [e] }

/-- The stream loop of `createTransport` (`transport.ts`): records processed
strictly in arrival order, each one's failure isolated; the run always
completes (the function is total) and never propagates a per-record failure. -/
def createTransport (cfg : Config) (agent : Option TraceAgentState)
    (recs : List (PinoLogObject × Except String Unit)) : TransportState :=
  recs.foldl (transportStep cfg agent) { written := [], diagnostics := [] }

/-- Sink outcome test used to state transport properties. -/
def sinkOk (x : Except String Unit) : Bool :=
  match x with
  | Except.ok _ => true
  | Except.error _ => false

/-- Rank of a severity in the platform's ascending order, for stating
monotonicity of `mapLevel`. -/
def severityRank (s : Severity) : Nat :=
  match s with
  | Severity.DEBUG => 0
  | Severity.INFO => 1
  | Severity.WARNING => 2
  | Severity.ERROR => 3
  | Severity.CRITICAL => 4

/-- Spec-side: non-empty run of case-insensitive hex digits (`[a-f0-9]+`). -/
def hexChars (l : List Char) : Bool :=
  !(l.isEmpty) && l.all isHexDigit

/-- Spec-side: non-empty run of decimal digits (`\d+`). -/
def digitChars (l : List Char) : Bool :=
  !(l.isEmpty) && l.all Char.isDigit

/-- Spec-side: well-formed optional span capture. -/
def optDigits (sp : Option (List Char)) : Bool :=
  match sp with
  | some d => digitChars d
  | none => true

/-- Spec-side: well-formed optional flag capture, the letter case-insensitive. -/
def optFlag (fl : Option (Char × Char)) : Bool :=
  match fl with
  | some q => (q.1 = 'o' ∨ q.1 = 'O' : Bool) && q.2.isDigit
  | none => true

/-- Spec-side: the characters contributed by the optional `/SPAN_ID` part. -/
def spanPart (sp : Option (List Char)) : List Char :=
  match sp with
  | some d => '/' :: d
  | none => []

/-- Spec-side: the characters contributed by the optional `;o=FLAG` part. -/
def flagPart (fl : Option (Char × Char)) : List Char :=
  match fl with
  | some q => ';' :: q.1 :: '=' :: [q.2]
  | none => []

/-- Spec-side reading of the claim's pattern
`^([a-f0-9]+)(?:/(\d+))?(?:;o=(\d))?$` (case-insensitive): `cs` decomposes as
a non-empty hex trace id, an optional slash-digits span part, and an optional
`;o=digit` flag part. -/
abbrev headerMatch (cs t : List Char) (sp : Option (List Char))
    (fl : Option (Char × Char)) : Prop :=
  hexChars t = true ∧ optDigits sp = true ∧ optFlag fl = true ∧
    cs = t ++ spanPart sp ++ flagPart fl

/-- Spec-side: the claim's message base for `formatMessage` — the record's
message (empty when absent) with `[prefix] ` prepended when a non-empty
prefix is configured. -/
def claimMessageBase (cfg : Config) (r : PinoLogObject) : String :=
  match cfg.pfx with
  | some p => if p = "" then r.msg.getD "" else "[" ++ p ++ "] " ++ r.msg.getD ""
  | none => r.msg.getD ""

/-- A plain well-formed record used by concrete transport runs. -/
def recW : PinoLogObject := { level := 30, time := 1, msg := some "a" }

/-- A three-record stream whose middle record's sink write rejects. -/
def recsW : List (PinoLogObject × Except String Unit) :=
  [(recW, Except.ok ()), (recW, Except.error "x"), (recW, Except.ok ())]

/-- Hypotheses under which the open schema of a record is sane: its keys are
pairwise distinct and none of them is a reserved key. -/
def wfExtra (r : PinoLogObject) : Prop :=
  (r.extra.map Prod.fst).Nodup ∧ ∀ k ∈ r.extra.map Prod.fst, k ∉ excludeKeys

/-- Concrete record showing the `pid` re-add and the `error` overwrite of
`buildMetadata`. -/
def rcPid : PinoLogObject :=
  { level := 30, time := 1, pid := some 42, err := some { type := some "T" },
    extra := [("error", Value.vstr "user"), ("foo", Value.vstr "bar")] }

/-- The record of the claim's concrete `buildMetadata` example. -/
def rcFoo : PinoLogObject :=
  { level := 30, time := 1, msg := some "x", extra := [("foo", Value.vstr "bar")] }

/-- A configuration with a service context, for the error-reporting claims. -/
def cfgSC : Config :=
  { serviceContext := some { service := some "svc", version := some "1" } }

/-- A record carrying a user payload field named `serviceContext` together
with a stacked error at ERROR severity. -/
def rcSCCollision : PinoLogObject :=
  { level := 50, time := 0, err := some { stack := some "S" },
    extra := [("serviceContext", Value.vstr "user")] }

/-- A collision-free record with a stacked error at ERROR severity. -/
def rcErrClean : PinoLogObject :=
  { level := 50, time := 0, err := some { stack := some "S" } }

/-- An ambient trace agent with truthy context id and writer project id. -/
def agentTP : Option TraceAgentState :=
  some { contextId := some "t", writerProjectId := some "p" }

/-- A record carrying the three correlation fields with falsy (empty-string)
trace and span values. -/
def rcEmptyTrace : PinoLogObject :=
  { level := 30, time := 0, trace := some "", spanId := some "", sampled := some false }

end PinoGcloud

namespace PinoGcloud

theorem lookupKey_setKey_self {α : Type} (o : List (String × α)) (k : String) (v : α) :
    lookupKey (setKey o k v) k = some v := by
  induction o with
  | nil => simp [setKey, lookupKey]
  | cons p rest ih =>
    by_cases h : p.1 = k
    · simp [setKey, h, lookupKey]
    · simp [setKey, h, lookupKey, ih]

theorem lookupKey_setKey_ne {α : Type} (o : List (String × α)) (k j : String) (v : α)
    (h : j ≠ k) : lookupKey (setKey o k v) j = lookupKey o j := by
  induction o with
  | nil => simp [setKey, lookupKey, Ne.symm h]
  | cons p rest ih =>
    by_cases hpk : p.1 = k
    · subst hpk
      simp [setKey, lookupKey, Ne.symm h, h]
    · by_cases hpj : p.1 = j
      · simp [setKey, hpk, lookupKey, hpj, h]
      · simp [setKey, hpk, lookupKey, hpj, ih]

theorem mem_keys_setKey {α : Type} (o : List (String × α)) (k j : String) (v : α) :
    j ∈ (setKey o k v).map Prod.fst ↔ j ∈ o.map Prod.fst ∨ j = k := by
  induction o with
  | nil => simp [setKey]
  | cons p rest ih =>
    by_cases h : p.1 = k
    · subst h
      simp [setKey]
      tauto
    · simp [setKey, h, ih]
      tauto

theorem setKey_eq_append {α : Type} (o : List (String × α)) (k : String) (v : α)
    (h : k ∉ o.map Prod.fst) : setKey o k v = o ++ [(k, v)] := by
  induction o with
  | nil => simp [setKey]
  | cons p rest ih =>
    simp only [List.map_cons, List.mem_cons] at h
    push_neg at h
    simp [setKey, Ne.symm h.1, ih h.2]

theorem lookupKey_eq_none_iff {α : Type} (o : List (String × α)) (k : String) :
    lookupKey o k = none ↔ k ∉ o.map Prod.fst := by
  induction o with
  | nil => simp [lookupKey]
  | cons p rest ih =>
    by_cases h : p.1 = k
    · subst h
      simp [lookupKey]
    · simp [lookupKey, h, ih, Ne.symm h]

theorem lookupKey_of_mem_nodup {α : Type} (o : List (String × α)) (k : String) (v : α)
    (hn : (o.map Prod.fst).Nodup) (hm : (k, v) ∈ o) : lookupKey o k = some v := by
  induction o with
  | nil => simp at hm
  | cons p rest ih =>
    rcases List.mem_cons.mp hm with h | h
    · cases h.symm
      simp [lookupKey]
    · have hk : k ∈ rest.map Prod.fst := List.mem_map.mpr ⟨(k, v), h, rfl⟩
      have hn' : p.1 ∉ rest.map Prod.fst ∧ (rest.map Prod.fst).Nodup := by
        rw [List.map_cons, List.nodup_cons] at hn
        exact hn
      by_cases hp : p.1 = k
      · exact absurd (hp ▸ hk) hn'.1
      · simpa [lookupKey, hp] using ih hn'.2 h

theorem lookupKey_append_right {α : Type} (a b : List (String × α)) (k : String)
    (h : k ∉ a.map Prod.fst) : lookupKey (a ++ b) k = lookupKey b k := by
  induction a with
  | nil => simp
  | cons p rest ih =>
    simp only [List.map_cons, List.mem_cons] at h
    push_neg at h
    simp [lookupKey, Ne.symm h.1, ih h.2]

/-- C2: `mapLevel` realizes the five-bucket threshold table — CRITICAL for
levels at least 60, ERROR on [50,60), WARNING on [40,50), INFO on [30,40),
DEBUG below 30 — for every integer level, and is monotone: a lower level never
maps to a higher severity. -/
theorem mapLevel_spec :
    (∀ L : Int,
      (60 ≤ L → mapLevel L = Severity.CRITICAL) ∧
      (50 ≤ L → L < 60 → mapLevel L = Severity.ERROR) ∧
      (40 ≤ L → L < 50 → mapLevel L = Severity.WARNING) ∧
      (30 ≤ L → L < 40 → mapLevel L = Severity.INFO) ∧
      (L < 30 → mapLevel L = Severity.DEBUG)) ∧
    (∀ L1 L2 : Int, L1 ≤ L2 → severityRank (mapLevel L1) ≤ severityRank (mapLevel L2)) := by
  constructor
  · intro L
    refine ⟨fun h => ?_, fun h1 h2 => ?_, fun h1 h2 => ?_, fun h1 h2 => ?_, fun h => ?_⟩ <;>
      (unfold mapLevel; split_ifs <;> first | rfl | omega)
  · intro L1 L2 h
    unfold mapLevel
    split_ifs <;> (simp only [severityRank]; omega)

theorem mapLevel_spec_witness :
    mapLevel 60 = Severity.CRITICAL ∧ mapLevel 59 = Severity.ERROR ∧
      mapLevel 39 = Severity.INFO ∧ mapLevel 29 = Severity.DEBUG ∧
      severityRank (mapLevel 0) ≤ severityRank (mapLevel 1000) :=
  ⟨(mapLevel_spec.1 60).1 (by decide),
   (mapLevel_spec.1 59).2.1 (by decide) (by decide),
   (mapLevel_spec.1 39).2.2.2.1 (by decide) (by decide),
   (mapLevel_spec.1 29).2.2.2.2 (by decide),
   mapLevel_spec.2 0 1000 (by decide)⟩

/-- C4: for every record, configuration and sink resolution, `writeLog`
propagates exactly the sink outcome (a sink failure is the only failure, and
callback invocation never suppresses it); on success the per-call callback
(when given) and the default callback (when configured) are invoked with a
null error, on failure both are invoked with the error before propagation. -/
theorem writeLog_callbacks_spec (cfg : Config) (agent : Option TraceAgentState)
    (r : PinoLogObject) (cb : Bool) (sink : Except String Unit) :
    (writeLog cfg agent r cb sink).2.2 = sink ∧
    (sink = Except.ok () →
      (cb = true → CbEvent.perCall none ∈ (writeLog cfg agent r cb sink).2.1) ∧
      (cfg.hasDefaultCallback = true →
        CbEvent.defaultCb none ∈ (writeLog cfg agent r cb sink).2.1)) ∧
    (∀ e, sink = Except.error e →
      (writeLog cfg agent r cb sink).2.2 = Except.error e ∧
      (cb = true → CbEvent.perCall (some e) ∈ (writeLog cfg agent r cb sink).2.1) ∧
      (cfg.hasDefaultCallback = true →
        CbEvent.defaultCb (some e) ∈ (writeLog cfg agent r cb sink).2.1)) := by
  cases sink with
  | ok u =>
    cases u
    refine ⟨rfl, fun _ => ⟨fun hcb => ?_, fun hd => ?_⟩, fun e he => Except.noConfusion he⟩
    · simp [writeLog, hcb]
    · simp [writeLog, hd]
  | error e =>
    refine ⟨rfl, fun h => Except.noConfusion h, fun e' he => ?_⟩
    have he' : e = e' := by injection he
    subst he'
    refine ⟨rfl, fun hcb => ?_, fun hd => ?_⟩
    · simp [writeLog, hcb]
    · simp [writeLog, hd]

theorem writeLog_callbacks_spec_witness :
    CbEvent.perCall (some "boom") ∈
      (writeLog { hasDefaultCallback := true } none recW true (Except.error "boom")).2.1 ∧
    CbEvent.defaultCb (some "boom") ∈
      (writeLog { hasDefaultCallback := true } none recW true (Except.error "boom")).2.1 ∧
    (writeLog { hasDefaultCallback := true } none recW true (Except.error "boom")).2.2 =
      Except.error "boom" := by
  have h := (writeLog_callbacks_spec { hasDefaultCallback := true } none recW true
    (Except.error "boom")).2.2 "boom" rfl
  exact ⟨h.2.1 rfl, h.2.2 rfl, h.1⟩

/-- C6: `formatMessage` starts from the record's message (empty when absent),
prepends `[prefix] ` exactly when a non-empty prefix is configured, and when
the record carries an error with a non-empty stack appends it after a newline
to a non-empty message or uses it as the whole message otherwise; with the
claim's three concrete instances. -/
theorem formatMessage_spec :
    (∀ (cfg : Config) (r : PinoLogObject),
      errStackTruthy r = false → formatMessage cfg r = claimMessageBase cfg r) ∧
    (∀ (cfg : Config) (r : PinoLogObject) (e : PinoErr) (st : String),
      r.err = some e → e.stack = some st → st ≠ "" →
      (claimMessageBase cfg r = "" → formatMessage cfg r = st) ∧
      (claimMessageBase cfg r ≠ "" →
        formatMessage cfg r = claimMessageBase cfg r ++ "\n" ++ st)) ∧
    formatMessage {} { level := 30, time := 0, msg := some "m" } = "m" ∧
    formatMessage { pfx := some "svc" } { level := 30, time := 0, msg := some "m" } = "[svc] m" ∧
    formatMessage {}
      { level := 30, time := 0, msg := some "", err := some { stack := some "S" } } = "S" := by
  refine ⟨?_, ?_, rfl, rfl, rfl⟩
  · intro cfg r hfalse
    cases herr : r.err with
    | none => simp [formatMessage, claimMessageBase, herr]
    | some e =>
      cases hst : e.stack with
      | none => simp [formatMessage, claimMessageBase, herr, hst]
      | some st =>
        have hst0 : st = "" := by
          simpa [errStackTruthy, herr, hst] using hfalse
        simp [formatMessage, claimMessageBase, herr, hst, hst0]
  · intro cfg r e st herr hst hne
    have h1 : formatMessage cfg r =
        (if st = "" then claimMessageBase cfg r
         else if claimMessageBase cfg r = "" then st
         else claimMessageBase cfg r ++ "\n" ++ st) := by
      simp only [formatMessage, claimMessageBase, herr, hst]
    rw [h1, if_neg hne]
    constructor
    · intro hempty
      rw [if_pos hempty]
    · intro hnempty
      rw [if_neg hnempty]

theorem formatMessage_spec_witness :
    formatMessage { pfx := some "svc" }
      { level := 30, time := 0, msg := some "m", err := some { stack := some "S" } } =
      claimMessageBase { pfx := some "svc" }
        { level := 30, time := 0, msg := some "m", err := some { stack := some "S" } } ++
        "\n" ++ "S" :=
  (formatMessage_spec.2.1 { pfx := some "svc" }
    { level := 30, time := 0, msg := some "m", err := some { stack := some "S" } }
    { stack := some "S" } "S" rfl rfl (by decide)).2 (by decide)

theorem createTransport_go (cfg : Config) (agent : Option TraceAgentState)
    (recs : List (PinoLogObject × Except String Unit)) (st : TransportState) :
    recs.foldl (transportStep cfg agent) st =
      { written := st.written ++
          (recs.filter (fun p => sinkOk p.2)).map (fun p => buildEntry cfg agent p.1),
        diagnostics := st.diagnostics ++
          recs.filterMap
            (fun p => match p.2 with | Except.error e => some e | Except.ok _ => none) } := by
  induction recs generalizing st with
  | nil => simp
  | cons p rest ih =>
    cases hp : p.2 with
    | ok u =>
      cases u
      simp [List.foldl_cons, transportStep, writeLog, hp, ih, List.filter_cons, sinkOk,
        List.filterMap_cons]
    | error e =>
      simp [List.foldl_cons, transportStep, writeLog, hp, ih, List.filter_cons, sinkOk,
        List.filterMap_cons]

theorem length_filterMap_err (recs : List (PinoLogObject × Except String Unit)) :
    (recs.filterMap
      (fun p => match p.2 with | Except.error e => some e | Except.ok _ => none)).length =
    recs.countP (fun p => !(sinkOk p.2)) := by
  induction recs with
  | nil => simp
  | cons p rest ih =>
    cases hp : p.2 with
    | ok u => simp [List.filterMap_cons, hp, List.countP_cons, sinkOk, ih]
    | error e => simp [List.filterMap_cons, hp, List.countP_cons, sinkOk, ih]

/-- C9: a transport stream run delivers exactly the records whose sink write
succeeds, in arrival order, reports each failing record's error to the
diagnostic channel, and always completes (every record is accounted for); in
particular a stream with exactly one rejection yields N−1 delivered writes and
one diagnostic report.  Per-record failures are never propagated: the run is a
total function into the final state. -/
theorem transport_isolation_spec (cfg : Config) (agent : Option TraceAgentState)
    (recs : List (PinoLogObject × Except String Unit)) :
    (createTransport cfg agent recs).written =
      (recs.filter (fun p => sinkOk p.2)).map (fun p => buildEntry cfg agent p.1) ∧
    (createTransport cfg agent recs).diagnostics =
      recs.filterMap (fun p => match p.2 with | Except.error e => some e | Except.ok _ => none) ∧
    (createTransport cfg agent recs).written.length +
      (createTransport cfg agent recs).diagnostics.length = recs.length ∧
    (recs.countP (fun p => !(sinkOk p.2)) = 1 →
      (createTransport cfg agent recs).written.length + 1 = recs.length ∧
      (createTransport cfg agent recs).diagnostics.length = 1) := by
  have hgo := createTransport_go cfg agent recs { written := [], diagnostics := [] }
  have hw : (createTransport cfg agent recs).written =
      (recs.filter (fun p => sinkOk p.2)).map (fun p => buildEntry cfg agent p.1) := by
    rw [createTransport, hgo]
    simp
  have hd : (createTransport cfg agent recs).diagnostics =
      recs.filterMap (fun p => match p.2 with | Except.error e => some e | Except.ok _ => none) := by
    rw [createTransport, hgo]
    simp
  have hlen : (createTransport cfg agent recs).written.length +
      (createTransport cfg agent recs).diagnostics.length = recs.length := by
    rw [hw, hd, length_filterMap_err, List.length_map, ← List.countP_eq_length_filter]
    have htot := List.length_eq_countP_add_countP (fun p => sinkOk p.2) (l := recs)
    simp only [decide_not, Bool.decide_eq_true] at htot
    omega
  refine ⟨hw, hd, hlen, fun hone => ?_⟩
  have hd1 : (createTransport cfg agent recs).diagnostics.length = 1 := by
    rw [hd, length_filterMap_err, hone]
  exact ⟨by omega, hd1⟩

theorem transport_isolation_spec_witness :
    (createTransport {} none recsW).written.length + 1 = recsW.length ∧
    (createTransport {} none recsW).diagnostics.length = 1 :=
  (transport_isolation_spec {} none recsW).2.2.2 (by decide)

theorem mem_keys_filter_excl {α : Type} (o : List (String × α)) (k : String) :
    k ∈ (o.filter (fun p => !(excludeKeys.contains p.1))).map Prod.fst ↔
      k ∈ o.map Prod.fst ∧ k ∉ excludeKeys := by
  constructor
  · intro hk
    rcases List.mem_map.mp hk with ⟨p, hp, rfl⟩
    have hf := List.mem_filter.mp hp
    refine ⟨List.mem_map.mpr ⟨p, hf.1, rfl⟩, ?_⟩
    have hq := hf.2
    simpa [List.contains] using hq
  · rintro ⟨hk, hex⟩
    rcases List.mem_map.mp hk with ⟨p, hp, rfl⟩
    refine List.mem_map.mpr ⟨p, List.mem_filter.mpr ⟨hp, ?_⟩, rfl⟩
    simpa [List.contains] using hex

theorem mem_keys_buildMetadata (r : PinoLogObject) (k : String) :
    k ∈ (buildMetadata r).map Prod.fst ↔
      (k ∈ r.extra.map Prod.fst ∧ k ∉ excludeKeys) ∨
      (r.err.isSome = true ∧ k = "error") ∨
      ((∃ p, r.pid = some p ∧ p ≠ 0) ∧ k = "pid") ∨
      ((∃ hv, r.hostname = some hv ∧ hv ≠ "") ∧ k = "hostname") := by
  simp only [buildMetadata]
  cases he : r.err <;> cases hp : r.pid <;> cases hh : r.hostname <;>
    dsimp only <;>
    (try split_ifs) <;>
    simp only [mem_keys_setKey, mem_keys_filter_excl] <;>
    simp_all [-List.mem_map] <;>
    tauto

theorem lookupKey_buildMetadata_extra (r : PinoLogObject) (k : String) (v : Value)
    (hn : (r.extra.map Prod.fst).Nodup) (hm : (k, v) ∈ r.extra) (hex : k ∉ excludeKeys)
    (herr : k ≠ "error" ∨ r.err = none) :
    lookupKey (buildMetadata r) k = some v := by
  have hkpid : k ≠ "pid" := by
    intro h
    exact hex (h ▸ (by decide : ("pid" : String) ∈ excludeKeys))
  have hkhost : k ≠ "hostname" := by
    intro h
    exact hex (h ▸ (by decide : ("hostname" : String) ∈ excludeKeys))
  have hbase : lookupKey (r.extra.filter (fun p => !(excludeKeys.contains p.1))) k = some v := by
    apply lookupKey_of_mem_nodup
    · exact hn.sublist ((List.filter_sublist _).map Prod.fst)
    · refine List.mem_filter.mpr ⟨hm, ?_⟩
      simpa [List.contains] using hex
  simp only [buildMetadata]
  rcases herr with hkerr | hnone
  · cases he : r.err <;> cases hp : r.pid <;> cases hh : r.hostname <;>
      dsimp only <;> (try split_ifs) <;>
      simp [lookupKey_setKey_ne, hkerr, hkpid, hkhost] <;>
      simpa using hbase
  · cases hp : r.pid <;> cases hh : r.hostname <;>
      simp only [hnone] <;> (try split_ifs) <;>
      simp [lookupKey_setKey_ne, hkpid, hkhost] <;>
      simpa using hbase

/-- C1 counterexample: on the record `{level:30, time:1, pid:42,
err:{type:"T"}, error:"user", foo:"bar"}` the payload of `buildMetadata`
contains the reserved key `pid`, and the non-reserved input field `error` does
not appear unchanged (it is overwritten by the error object) — refuting both
halves of the claim as stated. -/
theorem buildMetadata_reserved_leak_cex :
    "pid" ∈ (buildMetadata rcPid).map Prod.fst ∧
    "pid" ∈ excludeKeys ∧
    lookupKey rcPid.extra "error" = some (Value.vstr "user") ∧
    "error" ∉ excludeKeys ∧
    lookupKey (buildMetadata rcPid) "error" = some (errEntry { type := some "T" }) ∧
    errEntry { type := some "T" } ≠ Value.vstr "user" := by
  refine ⟨by decide, by decide, rfl, by decide, rfl, ?_⟩
  intro h
  exact Value.noConfusion h

/-- C1 (amended): under a well-formed open schema, every non-reserved input
field appears unchanged in `buildMetadata`'s payload unless it is the key
`error` shadowed by a present error object; no reserved key other than `pid`
and `hostname` ever appears in the payload, and `pid`/`hostname` appear
exactly when present with a truthy value; the record
`{level:30, time:1, msg:"x", foo:"bar"}` yields exactly `{foo:"bar"}`. -/
theorem buildMetadata_roundtrip_amended (r : PinoLogObject) :
    ((r.extra.map Prod.fst).Nodup →
      ∀ k v, (k, v) ∈ r.extra → k ∉ excludeKeys → (k ≠ "error" ∨ r.err = none) →
        lookupKey (buildMetadata r) k = some v) ∧
    (∀ k, k ∈ (buildMetadata r).map Prod.fst → k ∈ excludeKeys →
      k = "pid" ∨ k = "hostname") ∧
    ("pid" ∈ (buildMetadata r).map Prod.fst ↔ ∃ p, r.pid = some p ∧ p ≠ 0) ∧
    ("hostname" ∈ (buildMetadata r).map Prod.fst ↔ ∃ hv, r.hostname = some hv ∧ hv ≠ "") ∧
    buildMetadata rcFoo = [("foo", Value.vstr "bar")] := by
  refine ⟨?_, ?_, ?_, ?_, rfl⟩
  · intro hn k v hm hex herr
    exact lookupKey_buildMetadata_extra r k v hn hm hex herr
  · intro k hk hkex
    rcases (mem_keys_buildMetadata r k).mp hk with ⟨_, hnex⟩ | ⟨_, rfl⟩ | ⟨_, rfl⟩ | ⟨_, rfl⟩
    · exact absurd hkex hnex
    · exact absurd hkex (by decide)
    · exact Or.inl rfl
    · exact Or.inr rfl
  · rw [mem_keys_buildMetadata]
    constructor
    · rintro (⟨_, hnex⟩ | ⟨_, h⟩ | ⟨hp, _⟩ | ⟨_, h⟩)
      · exact absurd (by decide) hnex
      · exact absurd h (by decide)
      · exact hp
      · exact absurd h (by decide)
    · intro hp
      exact Or.inr (Or.inr (Or.inl ⟨hp, rfl⟩))
  · rw [mem_keys_buildMetadata]
    constructor
    · rintro (⟨_, hnex⟩ | ⟨_, h⟩ | ⟨_, h⟩ | ⟨hh, _⟩)
      · exact absurd (by decide) hnex
      · exact absurd h (by decide)
      · exact absurd h (by decide)
      · exact hh
    · intro hh
      exact Or.inr (Or.inr (Or.inr ⟨hh, rfl⟩))

theorem buildMetadata_roundtrip_amended_witness :
    lookupKey (buildMetadata rcFoo) "foo" = some (Value.vstr "bar") ∧
    "pid" ∈ (buildMetadata rcPid).map Prod.fst :=
  ⟨(buildMetadata_roundtrip_amended rcFoo).1 (by decide) "foo" (Value.vstr "bar")
      (List.mem_cons_self _ _) (by decide) (Or.inr rfl),
   (buildMetadata_roundtrip_amended rcPid).2.2.1.mpr ⟨42, rfl, by decide⟩⟩

theorem writeLog_fst (cfg : Config) (agent : Option TraceAgentState) (r : PinoLogObject)
    (cb : Bool) (sink : Except String Unit) :
    (writeLog cfg agent r cb sink).1 = buildEntry cfg agent r := by
  cases sink <;> rfl

theorem keys_entryDataBase_subset (cfg : Config) (r : PinoLogObject) :
    ∀ k ∈ (entryDataBase cfg r).map Prod.fst,
      k ∈ r.extra.map Prod.fst ∨ k = "error" ∨ k = "pid" ∨ k = "hostname" ∨ k = "message" := by
  intro k hk
  simp only [entryDataBase] at hk
  split_ifs at hk
  · rcases (mem_keys_setKey _ _ _ _).mp hk with hk | hk
    · have h4 := (mem_keys_buildMetadata r k).mp hk
      tauto
    · tauto
  · have h4 := (mem_keys_buildMetadata r k).mp hk
    tauto

/-- C3 counterexample: with a configured service context, ERROR severity and a
stacked error, on a record that also carries a user payload field named
`serviceContext`, the augmentation does not merely add fields — it replaces
the user field's value — refuting "the augmentation only adds those two
fields" for an arbitrary record. -/
theorem errorReporting_additivity_cex :
    cfgSC.serviceContext.isSome = true ∧
    mapLevel rcSCCollision.level = Severity.ERROR ∧
    errStackTruthy rcSCCollision = true ∧
    lookupKey (entryDataBase cfgSC rcSCCollision) "serviceContext" = some (Value.vstr "user") ∧
    lookupKey (writeLog cfgSC none rcSCCollision false (Except.ok ())).1.data "serviceContext" =
      some (serviceContextValue { service := some "svc", version := some "1" }) ∧
    serviceContextValue { service := some "svc", version := some "1" } ≠ Value.vstr "user" := by
  refine ⟨rfl, rfl, rfl, rfl, rfl, ?_⟩
  intro h
  exact Value.noConfusion h

/-- C3 (amended): for every configuration, agent state, record whose user
fields do not include the keys `serviceContext` and `@type`, and sink
resolution, the payload of the entry produced by `writeLog` carries the
reportable-error `@type` discriminator and the service context object exactly
when a service context is configured, the mapped severity is ERROR or
CRITICAL, and the error stack is non-empty; when applied, the augmentation
appends exactly those two fields to the base payload, and otherwise the
payload is exactly the base payload with neither key present. -/
theorem errorReporting_iff_amended (cfg : Config) (agent : Option TraceAgentState)
    (r : PinoLogObject) (cb : Bool) (sink : Except String Unit)
    (h1 : "serviceContext" ∉ r.extra.map Prod.fst)
    (h2 : "@type" ∉ r.extra.map Prod.fst) :
    (∀ sc, cfg.serviceContext = some sc →
      (mapLevel r.level = Severity.ERROR ∨ mapLevel r.level = Severity.CRITICAL) →
      errStackTruthy r = true →
      (writeLog cfg agent r cb sink).1.data =
        entryDataBase cfg r ++
          [("serviceContext", serviceContextValue sc),
           ("@type", Value.vstr REPORTED_ERROR_TYPE)] ∧
      lookupKey (writeLog cfg agent r cb sink).1.data "serviceContext" =
        some (serviceContextValue sc) ∧
      lookupKey (writeLog cfg agent r cb sink).1.data "@type" =
        some (Value.vstr REPORTED_ERROR_TYPE)) ∧
    ((cfg.serviceContext = none ∨
        ¬(mapLevel r.level = Severity.ERROR ∨ mapLevel r.level = Severity.CRITICAL) ∨
        errStackTruthy r = false) →
      (writeLog cfg agent r cb sink).1.data = entryDataBase cfg r ∧
      lookupKey (writeLog cfg agent r cb sink).1.data "serviceContext" = none ∧
      lookupKey (writeLog cfg agent r cb sink).1.data "@type" = none) := by
  have hdata : (writeLog cfg agent r cb sink).1.data =
      augmentErrorReporting cfg r (entryDataBase cfg r) := by
    rw [writeLog_fst]
    rfl
  have hscb : "serviceContext" ∉ (entryDataBase cfg r).map Prod.fst := by
    intro hmem
    rcases keys_entryDataBase_subset cfg r _ hmem with h | h | h | h | h
    · exact h1 h
    · exact absurd h (by decide)
    · exact absurd h (by decide)
    · exact absurd h (by decide)
    · exact absurd h (by decide)
  have htyb : "@type" ∉ (entryDataBase cfg r).map Prod.fst := by
    intro hmem
    rcases keys_entryDataBase_subset cfg r _ hmem with h | h | h | h | h
    · exact h2 h
    · exact absurd h (by decide)
    · exact absurd h (by decide)
    · exact absurd h (by decide)
    · exact absurd h (by decide)
  constructor
  · intro sc hsc hsev hstack
    have htyb2 : "@type" ∉
        ((entryDataBase cfg r) ++ [("serviceContext", serviceContextValue sc)]).map Prod.fst := by
      intro hmem
      rw [List.map_append] at hmem
      rcases List.mem_append.mp hmem with h | h
      · exact htyb h
      · simp at h
    have haug : augmentErrorReporting cfg r (entryDataBase cfg r) =
        entryDataBase cfg r ++
          [("serviceContext", serviceContextValue sc),
           ("@type", Value.vstr REPORTED_ERROR_TYPE)] := by
      simp only [augmentErrorReporting, hsc, if_pos (And.intro hsev hstack)]
      rw [setKey_eq_append _ _ _ hscb, setKey_eq_append _ _ _ htyb2, List.append_assoc]
      rfl
    rw [hdata, haug]
    refine ⟨rfl, ?_, ?_⟩
    · rw [lookupKey_append_right _ _ _ hscb]
      rfl
    · rw [lookupKey_append_right _ _ _ htyb]
      rfl
  · intro hneg
    have haug : augmentErrorReporting cfg r (entryDataBase cfg r) = entryDataBase cfg r := by
      cases hsc : cfg.serviceContext with
      | none => simp [augmentErrorReporting, hsc]
      | some sc =>
        have hnc : ¬((mapLevel r.level = Severity.ERROR ∨ mapLevel r.level = Severity.CRITICAL) ∧
            errStackTruthy r = true) := by
          rcases hneg with h | h | h
          · rw [hsc] at h
            exact Option.noConfusion h
          · exact fun hc => h hc.1
          · intro hc
            rw [h] at hc
            exact Bool.noConfusion hc.2
        simp only [augmentErrorReporting, hsc, if_neg hnc]
    rw [hdata, haug]
    exact ⟨rfl, (lookupKey_eq_none_iff _ _).mpr hscb, (lookupKey_eq_none_iff _ _).mpr htyb⟩

theorem errorReporting_iff_amended_witness :
    (writeLog cfgSC none rcErrClean false (Except.ok ())).1.data =
      entryDataBase cfgSC rcErrClean ++
        [("serviceContext", serviceContextValue { service := some "svc", version := some "1" }),
         ("@type", Value.vstr REPORTED_ERROR_TYPE)] :=
  ((errorReporting_iff_amended cfgSC none rcErrClean false (Except.ok ())
      (by decide) (by decide)).1
    { service := some "svc", version := some "1" } rfl (Or.inl rfl) rfl).1

theorem getCurrentTraceFromAgent_ne_empty (agent : Option TraceAgentState) :
    ∀ s, getCurrentTraceFromAgent agent = some s → s ≠ "" := by
  intro s hs
  cases agent with
  | none => simp [getCurrentTraceFromAgent] at hs
  | some a =>
    cases hc : a.contextId with
    | none => simp [getCurrentTraceFromAgent, hc] at hs
    | some t =>
      cases hw : a.writerProjectId with
      | none => simp [getCurrentTraceFromAgent, hc, hw] at hs
      | some p =>
        simp only [getCurrentTraceFromAgent, hc, hw] at hs
        by_cases hcond : t = "" ∨ p = ""
        · rw [if_pos hcond] at hs
          exact absurd hs (by simp)
        · rw [if_neg hcond] at hs
          have hs' : "projects/" ++ p ++ "/traces/" ++ t = s := by
            injection hs
          intro hemp
          rw [hemp] at hs'
          have hlen := congrArg String.length hs'
          simp only [String.length_append] at hlen
          have h9 : "projects/".length = 9 := rfl
          have h0 : "".length = 0 := rfl
          omega

/-- C7 counterexample: the record carries all three correlation fields
(empty-string trace and span, sampled false) yet the engine does not use the
carried trace verbatim — it falls back to the agent — and drops the carried
span from the result, refuting the claim as stated. -/
theorem extractTraceInfo_truthiness_cex :
    rcEmptyTrace.trace = some "" ∧
    rcEmptyTrace.spanId = some "" ∧
    (extractTraceInfo agentTP rcEmptyTrace).trace = some "projects/p/traces/t" ∧
    (extractTraceInfo agentTP rcEmptyTrace).trace ≠ rcEmptyTrace.trace ∧
    (extractTraceInfo agentTP rcEmptyTrace).spanId = none := by
  refine ⟨rfl, rfl, rfl, by decide, rfl⟩

/-- C7 (amended): each correlation field is resolved independently; a carried
trace or span is used verbatim when truthy (non-empty), while an absent or
empty one behaves as absent — only the trace then falls back to the agent's
current trace, the span staying absent; the sampled flag is used verbatim
whenever present (even `false`) and is absent otherwise. -/
theorem extractTraceInfo_spec_amended (agent : Option TraceAgentState) (r : PinoLogObject) :
    (∀ t, r.trace = some t → t ≠ "" → (extractTraceInfo agent r).trace = some t) ∧
    ((r.trace = none ∨ r.trace = some "") →
      (extractTraceInfo agent r).trace = getCurrentTraceFromAgent agent) ∧
    (∀ s, r.spanId = some s → s ≠ "" → (extractTraceInfo agent r).spanId = some s) ∧
    ((r.spanId = none ∨ r.spanId = some "") → (extractTraceInfo agent r).spanId = none) ∧
    (∀ b, r.sampled = some b → (extractTraceInfo agent r).traceSampled = some b) ∧
    (r.sampled = none → (extractTraceInfo agent r).traceSampled = none) := by
  refine ⟨?_, ?_, ?_, ?_, ?_, ?_⟩
  · intro t ht hne
    simp [extractTraceInfo, ht, hne]
  · intro h
    cases hag : getCurrentTraceFromAgent agent with
    | none =>
      rcases h with h | h <;> simp [extractTraceInfo, h, hag]
    | some s =>
      have hs := getCurrentTraceFromAgent_ne_empty agent s hag
      rcases h with h | h <;> simp [extractTraceInfo, h, hag, hs]
  · intro s hs hne
    simp [extractTraceInfo, hs, hne]
  · rintro (h | h) <;> simp [extractTraceInfo, h]
  · intro b hb
    simp [extractTraceInfo, hb]
  · intro h
    simp [extractTraceInfo, h]

theorem extractTraceInfo_spec_amended_witness :
    (extractTraceInfo agentTP
        { level := 30, time := 0, trace := some "T1", spanId := some "7",
          sampled := some true }).trace = some "T1" ∧
    (extractTraceInfo agentTP recW).trace = getCurrentTraceFromAgent agentTP :=
  ⟨(extractTraceInfo_spec_amended agentTP
      { level := 30, time := 0, trace := some "T1", spanId := some "7",
        sampled := some true }).1 "T1" rfl (by decide),
   (extractTraceInfo_spec_amended agentTP recW).2.1 (Or.inl rfl)⟩

/-- C8 counterexample: with `latencyMs = 0` — a given latency — the entry's
`httpRequest` block carries no latency at all (the source's
`latencyMs ? ... : undefined` treats `0` as falsy), instead of the claimed
split `{seconds := 0, nanos := 0}`. -/
theorem writeRequestLog_latency_zero_cex :
    ((writeRequestLog {} {} none none none (some 0) (Except.ok ())).1.metadata.httpRequest).map
        (fun h => h.latency) = some none ∧
    (some (some { seconds := Int.fdiv 0 1000, nanos := Int.tmod 0 1000 * 1000000 }) :
        Option (Option Latency)) ≠ some none :=
  ⟨rfl, by decide⟩

/-- C8 (amended): `writeRequestLog` builds an INFO entry with empty body and
no timestamp, whose envelope carries exactly the `httpRequest` block, the
trace triple and the configured labels; the latency is split into whole
seconds `floor(latencyMs/1000)` and nanosecond remainder
`(latencyMs rem 1000) * 10^6` whenever `latencyMs` is given and non-zero
(truthy), and is absent when `latencyMs` is absent or zero; the sink outcome
propagates unchanged. -/
theorem writeRequestLog_spec_amended (cfg : Config) (hr : HttpRequest)
    (trace spanId : Option String) (sampledFlag : Option Bool) (latencyMs : Option Int)
    (sink : Except String Unit) :
    (writeRequestLog cfg hr trace spanId sampledFlag latencyMs sink).1.metadata.severity =
      Severity.INFO ∧
    (writeRequestLog cfg hr trace spanId sampledFlag latencyMs sink).1.data = [] ∧
    (writeRequestLog cfg hr trace spanId sampledFlag latencyMs sink).1.metadata.timestamp = none ∧
    (writeRequestLog cfg hr trace spanId sampledFlag latencyMs sink).1.metadata.trace = trace ∧
    (writeRequestLog cfg hr trace spanId sampledFlag latencyMs sink).1.metadata.spanId = spanId ∧
    (writeRequestLog cfg hr trace spanId sampledFlag latencyMs sink).1.metadata.traceSampled =
      sampledFlag ∧
    (writeRequestLog cfg hr trace spanId sampledFlag latencyMs sink).1.metadata.labels =
      cfg.labels ∧
    (∀ l, latencyMs = some l → l ≠ 0 →
      (writeRequestLog cfg hr trace spanId sampledFlag latencyMs sink).1.metadata.httpRequest =
        some { hr with latency := some ⟨Int.fdiv l 1000, Int.tmod l 1000 * 1000000⟩ }) ∧
    ((latencyMs = none ∨ latencyMs = some 0) →
      (writeRequestLog cfg hr trace spanId sampledFlag latencyMs sink).1.metadata.httpRequest =
        some { hr with latency := none }) ∧
    (writeRequestLog cfg hr trace spanId sampledFlag latencyMs sink).2 = sink := by
  refine ⟨rfl, rfl, rfl, rfl, rfl, rfl, rfl, ?_, ?_, rfl⟩
  · intro l hl hne
    simp [writeRequestLog, hl, hne]
  · rintro (h | h) <;> simp [writeRequestLog, h]

theorem takeWhile_append_all (f : Char → Bool) (t rest : List Char)
    (h1 : ∀ c ∈ t, f c = true)
    (h2 : rest = [] ∨ ∃ c r', rest = c :: r' ∧ f c = false) :
    (t ++ rest).takeWhile f = t ∧ (t ++ rest).dropWhile f = rest := by
  induction t with
  | nil =>
    simp only [List.nil_append]
    rcases h2 with rfl | ⟨c, r', rfl, hc⟩
    · simp
    · simp [List.takeWhile_cons, List.dropWhile_cons, hc]
  | cons a t' ih =>
    have ha : f a = true := h1 a (List.mem_cons_self _ _)
    have ih' := ih (fun c hc => h1 c (List.mem_cons_of_mem _ hc))
    simp [List.takeWhile_cons, List.dropWhile_cons, ha, ih'.1, ih'.2]

theorem matchTail2_flagPart (fl : Option (Char × Char)) (hfl : optFlag fl = true) :
    matchTail2 (flagPart fl) = some (fl.map Prod.snd) := by
  cases fl with
  | none => rfl
  | some q =>
    have hq : (q.1 = 'o' ∨ q.1 = 'O') ∧ q.2.isDigit = true := by
      simpa [optFlag, Bool.and_eq_true, decide_eq_true_eq] using hfl
    simp [matchTail2, flagPart, hq.1, hq.2]

theorem matchTail2_sound (x : List Char) (flc : Option Char)
    (h : matchTail2 x = some flc) :
    ∃ fl, optFlag fl = true ∧ x = flagPart fl ∧ flc = fl.map Prod.snd := by
  unfold matchTail2 at h
  split at h
  · refine ⟨none, rfl, rfl, ?_⟩
    injection h with h'
    exact h'.symm
  · rename_i c1 c2 c3 c4 rest
    split_ifs at h with hc
    obtain ⟨hc1, hc2, hc3, hc4, hc5⟩ := hc
    subst hc1
    subst hc3
    subst hc5
    injection h with h'
    refine ⟨some (c2, c4), ?_, ?_, ?_⟩
    · simp [optFlag, hc2, hc4]
    · simp [flagPart]
    · rw [← h']
      rfl
  all_goals exact absurd h (by simp)

theorem matchTail1_sound (x : List Char) (sp : Option (List Char)) (flc : Option Char)
    (h : matchTail1 x = some (sp, flc)) :
    ∃ fl, optDigits sp = true ∧ optFlag fl = true ∧
      x = spanPart sp ++ flagPart fl ∧ flc = fl.map Prod.snd := by
  unfold matchTail1 at h
  split at h
  · have h2 : (some ((none : Option (List Char)), (none : Option Char)) :
        Option (Option (List Char) × Option Char)) = some (sp, flc) := h
    injection h2 with h'
    injection h' with h1 h2
    subst h1
    subst h2
    exact ⟨none, rfl, rfl, rfl, rfl⟩
  · rename_i c r
    by_cases hslash : c = '/'
    · rw [if_pos hslash] at h
      by_cases hde : List.takeWhile Char.isDigit r = []
      · rw [if_pos hde] at h
        exact absurd h (by simp)
      · rw [if_neg hde] at h
        subst hslash
        obtain ⟨flc', hm2, heq⟩ := Option.map_eq_some'.mp h
        injection heq with h1 h2
        subst h1
        subst h2
        obtain ⟨fl, hfl, hrest, hflc⟩ := matchTail2_sound _ _ hm2
        refine ⟨fl, ?_, hfl, ?_, hflc⟩
        · show digitChars (r.takeWhile Char.isDigit) = true
          rw [digitChars, Bool.and_eq_true, List.all_eq_true]
          refine ⟨by simpa using hde, fun c hc => List.mem_takeWhile_imp hc⟩
        · have hr : r.takeWhile Char.isDigit ++ flagPart fl = r := by
            rw [← hrest, List.takeWhile_append_dropWhile]
          show '/' :: r = ('/' :: r.takeWhile Char.isDigit) ++ flagPart fl
          rw [List.cons_append, hr]
    · rw [if_neg hslash] at h
      obtain ⟨flc', hm2, heq⟩ := Option.map_eq_some'.mp h
      injection heq with h1 h2
      subst h1
      subst h2
      obtain ⟨fl, hfl, hrest, hflc⟩ := matchTail2_sound _ _ hm2
      refine ⟨fl, rfl, hfl, ?_, hflc⟩
      simpa [spanPart] using hrest

theorem matchHeader_complete (cs t : List Char) (sp : Option (List Char))
    (fl : Option (Char × Char)) (h : headerMatch cs t sp fl) :
    matchHeader cs = some (t, sp, fl.map Prod.snd) := by
  obtain ⟨hhex, hsp, hfl, hcs⟩ := h
  subst hcs
  have htne : t ≠ [] := by
    intro h0
    subst h0
    simp [hexChars] at hhex
  have hallmem : ∀ c ∈ t, isHexDigit c = true := by
    have h2 := hhex
    rw [hexChars, Bool.and_eq_true, List.all_eq_true] at h2
    exact h2.2
  have hrest : spanPart sp ++ flagPart fl = [] ∨
      ∃ c r', spanPart sp ++ flagPart fl = c :: r' ∧ isHexDigit c = false := by
    cases sp with
    | some d => exact Or.inr ⟨'/', d ++ flagPart fl, by simp [spanPart], by decide⟩
    | none =>
      cases fl with
      | none => exact Or.inl rfl
      | some q => exact Or.inr ⟨';', q.1 :: '=' :: [q.2], by simp [spanPart, flagPart], by decide⟩
  have hsplit := takeWhile_append_all isHexDigit t (spanPart sp ++ flagPart fl) hallmem hrest
  have htail : matchTail1 (spanPart sp ++ flagPart fl) = some (sp, fl.map Prod.snd) := by
    cases sp with
    | none =>
      cases fl with
      | none => rfl
      | some q =>
        have hq : (q.1 = 'o' ∨ q.1 = 'O') ∧ q.2.isDigit = true := by
          simpa [optFlag, Bool.and_eq_true, decide_eq_true_eq] using hfl
        have hne : (';' : Char) ≠ '/' := by decide
        simp [spanPart, flagPart, matchTail1, matchTail2, hne, hq.1, hq.2]
    | some d =>
      have hd : d ≠ [] ∧ ∀ c ∈ d, c.isDigit = true := by
        have h2 := hsp
        rw [optDigits, digitChars, Bool.and_eq_true, List.all_eq_true] at h2
        refine ⟨?_, h2.2⟩
        intro h0
        rw [h0] at h2
        simp at h2
      have hfhead : flagPart fl = [] ∨
          ∃ c r', flagPart fl = c :: r' ∧ c.isDigit = false := by
        cases fl with
        | none => exact Or.inl rfl
        | some q => exact Or.inr ⟨';', q.1 :: '=' :: [q.2], by simp [flagPart], by decide⟩
      have hsplit2 := takeWhile_append_all Char.isDigit d (flagPart fl) hd.2 hfhead
      show matchTail1 ('/' :: (d ++ flagPart fl)) = some (some d, fl.map Prod.snd)
      rw [show matchTail1 ('/' :: (d ++ flagPart fl)) =
          (if (d ++ flagPart fl).takeWhile Char.isDigit = [] then none
           else (matchTail2 ((d ++ flagPart fl).dropWhile Char.isDigit)).map
             (fun flx => (some ((d ++ flagPart fl).takeWhile Char.isDigit), flx))) from rfl]
      rw [hsplit2.1, hsplit2.2, if_neg hd.1, matchTail2_flagPart fl hfl]
      rfl
  simp only [matchHeader]
  rw [List.append_assoc]
  rw [hsplit.1, hsplit.2, if_neg htne, htail]
  rfl

theorem matchHeader_sound (cs t : List Char) (sp : Option (List Char)) (flc : Option Char)
    (h : matchHeader cs = some (t, sp, flc)) :
    ∃ fl, headerMatch cs t sp fl ∧ flc = fl.map Prod.snd := by
  simp only [matchHeader] at h
  by_cases hte : cs.takeWhile isHexDigit = []
  · rw [if_pos hte] at h
    exact absurd h (by simp)
  · rw [if_neg hte] at h
    obtain ⟨⟨sp', flc'⟩, hm1, heq⟩ := Option.map_eq_some'.mp h
    obtain ⟨h1, h2⟩ := Prod.mk.inj heq
    obtain ⟨h3, h4⟩ := Prod.mk.inj h2
    subst h1
    subst h3
    subst h4
    obtain ⟨fl, hdig, hflg, hrest, hflc⟩ := matchTail1_sound _ _ _ hm1
    refine ⟨fl, ⟨?_, hdig, hflg, ?_⟩, hflc⟩
    · rw [hexChars, Bool.and_eq_true, List.all_eq_true]
      refine ⟨by simpa using hte, ?_⟩
      intro c hc
      exact List.mem_takeWhile_imp hc
    · conv_lhs => rw [← List.takeWhile_append_dropWhile isHexDigit cs]
      rw [hrest, List.append_assoc]

/-- C5: `parseTraceHeader` is total (never throws); it returns the all-null /
false result whenever the header or project id is empty or the header does
not decompose per the pattern `^([a-f0-9]+)(?:/(\d+))?(?:;o=(\d))?$`
(case-insensitive); on a match it returns the trace resource name
`projects/{projectId}/traces/{traceId}`, the captured decimal span (or none),
and sampled true iff the captured flag digit is `1`. -/
theorem parseTraceHeader_spec (h p : String) :
    (h = "" ∨ p = "" → parseTraceHeader h p = ⟨none, none, false⟩) ∧
    (p ≠ "" → (∀ t sp fl, ¬ headerMatch h.toList t sp fl) →
      parseTraceHeader h p = ⟨none, none, false⟩) ∧
    (p ≠ "" → ∀ t sp fl, headerMatch h.toList t sp fl →
      parseTraceHeader h p =
        ⟨some ("projects/" ++ p ++ "/traces/" ++ String.mk t),
         sp.map (fun ds => String.mk ds),
         decide (fl.map Prod.snd = some '1')⟩) := by
  refine ⟨?_, ?_, ?_⟩
  · intro hhp
    simp only [parseTraceHeader]
    rw [if_pos hhp]
  · intro hp hnone
    have hm : matchHeader h.toList = none := by
      cases hmh : matchHeader h.toList with
      | none => rfl
      | some r =>
        obtain ⟨t, sp, flc⟩ := r
        obtain ⟨fl, hdm, _⟩ := matchHeader_sound _ _ _ _ hmh
        exact absurd hdm (hnone _ _ _)
    by_cases hh : h = ""
    · simp only [parseTraceHeader]
      rw [if_pos (Or.inl hh)]
    · simp only [parseTraceHeader]
      rw [if_neg (by tauto), hm]
  · intro hp t sp fl hdm
    have hm := matchHeader_complete _ _ _ _ hdm
    have hh : h ≠ "" := by
      intro hh0
      obtain ⟨hhex, _, _, hcs⟩ := hdm
      rw [hh0] at hcs
      have h0 : t ++ spanPart sp ++ flagPart fl = [] := hcs.symm
      have ht0 : t = [] := by
        rcases List.append_eq_nil.mp h0 with ⟨h1, _⟩
        exact (List.append_eq_nil.mp h1).1
      subst ht0
      simp [hexChars] at hhex
    simp only [parseTraceHeader]
    rw [if_neg (by tauto), hm]

theorem parseTraceHeader_spec_witness :
    parseTraceHeader "abc123/789;o=1" "proj" =
      ⟨some "projects/proj/traces/abc123", some "789", true⟩ :=
  (parseTraceHeader_spec "abc123/789;o=1" "proj").2.2 (by decide)
    "abc123".toList (some "789".toList) (some ('o', '1')) (by decide)

theorem writeRequestLog_spec_amended_witness :
    (writeRequestLog {} {} none none none (some 2500) (Except.ok ())).1.metadata.httpRequest =
      some { ({} : HttpRequest) with
        latency := some ⟨Int.fdiv 2500 1000, Int.tmod 2500 1000 * 1000000⟩ } :=
  (writeRequestLog_spec_amended {} {} none none none (some 2500)
      (Except.ok ())).2.2.2.2.2.2.2.1 2500 rfl (by decide)

end PinoGcloud
